import Mathlib

/-!
Shallow embedding of the core of the `coding-test-2nd` RAG system:
the document segmentation engine (`backend/services/pdf_processor.py`)
and the retrieval-generation orchestrator
(`backend/services/rag_pipeline.py`).

Python strings are modelled as Lean `String` (lists of characters);
Python string primitives used by the source (`strip`, `split`, `lower`,
`isupper`, `in`, `re.sub`, `re.search`, `str.split(sep, 1)`) are
re-implemented below over `List Char` with Python semantics (restricted
to the ASCII behaviour the source relies on).  Similarity scores and
wall-clock durations are modelled as rationals.  External collaborators
(pdfplumber page extraction, the NLTK sentence tokenizer, the vector
store and the Ollama model client) are parameters of the embedded
functions.
-/

namespace RAGQA

/-- Python whitespace class `\s` (ASCII part), as used by `re.sub`,
`str.strip()` and `str.split()`. -/
def pyIsWs (c : Char) : Bool :=
  c == ' ' || c == '\t' || c == '\n' || c == '\r' || c == '\x0b' || c == '\x0c'

/-- Worker for `re.sub(r"\s+", " ", text)`: `prevWs` records whether the
previous character was part of a whitespace run already replaced. -/
def collapseGo : Bool → List Char → List Char
  | _, [] => []
  | prevWs, c :: cs =>
    if pyIsWs c then
      if prevWs then collapseGo true cs else ' ' :: collapseGo true cs
    else
      c :: collapseGo false cs

/-- `re.sub(r"\s+", " ", text)`: every whitespace run becomes one space. -/
def collapseWs (s : String) : String :=
  String.mk (collapseGo false s.data)

/-- Python `str.strip()`. -/
def pyStrip (s : String) : String :=
  String.mk (((s.data.dropWhile pyIsWs).reverse.dropWhile pyIsWs).reverse)

/-- Python `str.lower()` (ASCII). -/
def toLowerStr (s : String) : String :=
  String.mk (s.data.map Char.toLower)

/-- Python `str.isupper()` (ASCII): at least one cased character and no
lowercase character. -/
def pyIsUpper (s : String) : Bool :=
  s.data.any Char.isUpper && s.data.all (fun c => !c.isLower)

/-- Worker for Python `str.split()` (split on whitespace runs, dropping
empty pieces); `cur` holds the current word reversed. -/
def pyWordsGo : List Char → List Char → List String
  | cur, [] => if cur.isEmpty then [] else [String.mk cur.reverse]
  | cur, c :: cs =>
    if pyIsWs c then
      if cur.isEmpty then pyWordsGo [] cs
      else String.mk cur.reverse :: pyWordsGo [] cs
    else
      pyWordsGo (c :: cur) cs

/-- Python `str.split()` with no separator argument. -/
def pyWords (s : String) : List String :=
  pyWordsGo [] s.data

/-- Worker for `text.split("\n")`; `cur` holds the current line reversed. -/
def splitLinesGo : List Char → List Char → List String
  | cur, [] => [String.mk cur.reverse]
  | cur, c :: cs =>
    if c == '\n' then String.mk cur.reverse :: splitLinesGo [] cs
    else splitLinesGo (c :: cur) cs

/-- Python `text.split("\n")`. -/
def splitLines (s : String) : List String :=
  splitLinesGo [] s.data

/-- Splits a character list around the first occurrence of the nonempty
pattern `pat`, returning the part before it and the part after it. -/
def splitFirstL (pat : List Char) : List Char → Option (List Char × List Char)
  | [] => if pat.isPrefixOf ([] : List Char) then some ([], []) else none
  | c :: cs =>
    if pat.isPrefixOf (c :: cs) then some ([], (c :: cs).drop pat.length)
    else
      match splitFirstL pat cs with
      | some (b, a) => some (c :: b, a)
      | none => none

/-- Python `pat in s` (substring containment, nonempty `pat`). -/
def containsSub (s pat : String) : Bool :=
  (splitFirstL pat.data s.data).isSome

/-- Python `s.split(pat)[0]`: the text before the first occurrence of
`pat`, or all of `s` when `pat` does not occur. -/
def beforeFirst (s pat : String) : String :=
  match splitFirstL pat.data s.data with
  | some (b, _) => String.mk b
  | none => s

/-- Python `s.split(pat, 1)[1]`: the text after the first occurrence of
`pat` (meaningful only when `pat` occurs in `s`). -/
def afterFirst (s pat : String) : String :=
  match splitFirstL pat.data s.data with
  | some (_, a) => String.mk a
  | none => ""

/-- Python `sep.join(parts)`. -/
def joinWith (sep : String) : List String → String
  | [] => ""
  | [s] => s
  | s :: rest => s ++ sep ++ joinWith sep rest

/-- Sum of the character lengths of the strings in a list, as in
`sum(len(s) for s in temp)`. -/
def sumLen (l : List String) : Nat :=
  (l.map String.length).sum

/-- True when the string has at least one non-whitespace character,
i.e. exactly when Python `s.strip()` is truthy. -/
def hasNonWs (s : String) : Bool :=
  s.data.any (fun c => !pyIsWs c)

/-- Python `round(x, 2)` idealized over the rationals: round half to
even at the second decimal place. -/
def pyRound2 (q : ℚ) : ℚ :=
  let y := q * 100
  let n : ℤ := if Int.fract y = 1 / 2 then (if 2 ∣ ⌊y⌋ then ⌊y⌋ else ⌊y⌋ + 1) else round y
  (n : ℚ) / 100

/-! ## Document segmentation engine (`backend/services/pdf_processor.py`) -/

/-- The `financial_headings` vocabulary of `PDFProcessor._is_financial_heading`. -/
def financialHeadings : List String :=
  ["income statement", "profit and loss", "p&l", "balance sheet",
   "statement of financial position", "cash flow statement",
   "statement of cash flows", "revenue", "cost of goods sold",
   "operating expenses", "assets", "liabilities", "equity",
   "shareholders\x27 equity", "total revenue", "gross profit",
   "operating income", "net income", "cash and cash equivalents"]

/-- `PDFProcessor._is_financial_heading`: case-insensitive substring match
of any vocabulary term against the stripped, lowered text. -/
def isFinancialHeading (text : String) : Bool :=
  let textLower := pyStrip (toLowerStr text)
  financialHeadings.any (fun h => containsSub textLower h)

/-- The alternative `\d+\.` of the heading regex, matched against the
whole line: one or more ASCII digits followed by a final dot. -/
def digitsDot (l : List Char) : Bool :=
  match l.reverse with
  | '.' :: ds => !ds.isEmpty && ds.all Char.isDigit
  | _ => false

/-- ASCII range `[A-Z]` of the heading regex. -/
def isAZ (c : Char) : Bool :=
  'A' ≤ c && c ≤ 'Z'

/-- The alternative `[A-Z][A-Z\s\-:]+` of the heading regex, matched
against the whole line. -/
def upperRun : List Char → Bool
  | [] => false
  | c :: rest =>
    isAZ c && !rest.isEmpty && rest.all (fun d => isAZ d || pyIsWs d || d == '-' || d == ':')

/-- `re.match(r"^(\d+\.|[A-Z][A-Z\s\-:]+)$", line_stripped)` as a Bool. -/
def headingRe (s : String) : Bool :=
  digitsDot s.data || upperRun s.data

/-- The `is_heading` disjunction inside `PDFProcessor._split_by_headings`,
applied to the stripped line. -/
def isHeadingLine (lineStripped : String) : Bool :=
  headingRe lineStripped || isFinancialHeading lineStripped ||
    (lineStripped.length > 0 && pyIsUpper lineStripped && (pyWords lineStripped).length ≤ 8)

/-- The line loop of `PDFProcessor._split_by_headings`: `cur` is the
`current_chunk` accumulator of unstripped body lines. -/
def sbhGo : List String → List String → List String
  | cur, [] => if cur.isEmpty then [] else [pyStrip (joinWith " " cur)]
  | cur, line :: rest =>
    let ls := pyStrip line
    if isHeadingLine ls then
      if cur.isEmpty then ls :: sbhGo [] rest
      else pyStrip (joinWith " " cur) :: ls :: sbhGo [] rest
    else
      sbhGo (cur ++ [line]) rest

/-- `PDFProcessor._split_by_headings`. -/
def splitByHeadings (text : String) : List String :=
  (sbhGo [] (splitLines text)).filter (fun c => pyStrip c != "")

/-- Worker for `PDFProcessor._extract_year`: `re.search(r"(20\d{2}|19\d{2})", text)`
scans positions left to right and returns the first 4-digit match. -/
def eyGo : List Char → Option String
  | [] => none
  | a :: rest =>
    match rest with
    | b :: c :: d :: _ =>
      if ((a == '2' && b == '0') || (a == '1' && b == '9')) && c.isDigit && d.isDigit then
        some (String.mk [a, b, c, d])
      else eyGo rest
    | _ => none

/-- `PDFProcessor._extract_year`. -/
def extractYear (s : String) : Option String :=
  eyGo s.data

/-- The `metrics` vocabulary of `PDFProcessor._extract_metric_type`,
in source order (the first vocabulary term found wins). -/
def metricsVocab : List String :=
  ["revenue", "operating profit", "operating income", "net income",
   "gross profit", "cash flow", "debt", "cost of goods sold",
   "expenses", "liabilities", "assets", "equity"]

/-- `PDFProcessor._extract_metric_type`. -/
def extractMetricType (s : String) : Option String :=
  let textLower := toLowerStr s
  metricsVocab.find? (fun m => containsSub textLower m)

/-- A raw table-cell grid as returned by the external
`page.extract_tables()`: rows of cells, a cell being `None` or a string. -/
abbrev Grid := List (List (Option String))

/-- Python truthiness of a raw cell: not `None` and not the empty string. -/
def cellTruthy : Option String → Bool
  | none => false
  | some s => s != ""

/-- Worker for `re.sub(r"\$\s+", "$", cell_str)`: after a dollar sign the
following whitespace run is dropped. -/
def dollarGo : Bool → List Char → List Char
  | _, [] => []
  | afterDollar, c :: cs =>
    if afterDollar && pyIsWs c then dollarGo true cs
    else if c == '$' then '$' :: dollarGo true cs
    else c :: dollarGo false cs

/-- Cell cleaning in `PDFProcessor._extract_financial_tables`: `None`
becomes `""`; otherwise strip, normalize currency spacing, collapse
whitespace. -/
def cleanCell : Option String → String
  | none => ""
  | some s => String.mk (collapseGo false (dollarGo false (pyStrip s).data))

/-- The `cleaned_rows` of `PDFProcessor._extract_financial_tables`:
fully-falsy rows dropped, every cell cleaned. -/
def cleanRows (grid : Grid) : List (List String) :=
  (grid.filter (fun row => row.any cellTruthy)).map (fun row => row.map cleanCell)

/-- The header row and separator row of a rendered table, present when
the first cleaned row has a truthy cell. -/
def tableHeaderLines (headers : List String) : List String :=
  if !headers.isEmpty && headers.any (fun h => h != "") then
    ["| " ++ joinWith " | " headers ++ " |",
     "|" ++ joinWith "|" (headers.map (fun h => String.mk (List.replicate (h.length + 2) '-'))) ++ "|"]
  else []

/-- The rendered body rows of a table: the non-empty cleaned rows after
the header row. -/
def tableRowLines (restRows : List (List String)) : List String :=
  (restRows.filter (fun r => r.any (fun c => c != ""))).map
    (fun r => "| " ++ joinWith " | " r ++ " |")

/-- Rendering of one table in `PDFProcessor._extract_financial_tables`:
header row and separator when the first cleaned row has a truthy cell,
then the remaining non-empty rows; `none` when nothing is renderable. -/
def renderTable (grid : Grid) : Option String :=
  match cleanRows grid with
  | [] => none
  | headers :: restRows =>
    match tableHeaderLines headers ++ tableRowLines restRows with
    | [] => none
    | l0 :: ls => some (joinWith "\n" (l0 :: ls))

/-- `PDFProcessor._extract_financial_tables`, with the pdfplumber page
replaced by its extracted grids. -/
def extractFinancialTables (grids : List Grid) : List String :=
  grids.filterMap (fun g => if g.isEmpty then none else renderTable g)

/-- One entry of the `pages_content` list built by
`PDFProcessor.extract_text_from_pdf` (the `metadata` dict holds only the
page number). -/
structure Page where
  pageNo : Nat
  content : String
  tables : List String
  deriving DecidableEq, Repr

/-- Python `enumerate`. -/
def pyEnum : Nat → List α → List (Nat × α)
  | _, [] => []
  | i, a :: as => (i, a) :: pyEnum (i + 1) as

/-- `PDFProcessor.extract_text_from_pdf`, with pdfplumber replaced by the
per-page raw text (`page.extract_text() or ""`) and raw table grids:
whitespace is collapsed and tables are rendered per page. -/
def extractTextFromPdf (raws : List (String × List Grid)) : List Page :=
  (pyEnum 0 raws).map
    (fun p => { pageNo := p.1 + 1,
                content := collapseWs p.2.1,
                tables := extractFinancialTables p.2.2 })

/-- The metadata dict attached to an emitted chunk (the keys the source
writes: `page`, `chunk_type`, `chunk_index`, `year`, `metric_type`). -/
structure Metadata where
  page : Option Nat := none
  chunk_type : Option String := none
  chunk_index : Option Nat := none
  year : Option String := none
  metric_type : Option String := none
  deriving DecidableEq, Repr

/-- A langchain `Document` as built by `PDFProcessor.split_into_chunks`. -/
structure Document where
  page_content : String
  metadata : Metadata
  deriving DecidableEq, Repr

/-- The table branch of `PDFProcessor.split_into_chunks`: the context
heading is the last financial heading among the page heading chunks;
year and metric fall back from the table text to the context heading
(Python `x or (ctx and f(ctx))`); the context heading text is prepended
newline-separated. -/
def mkTableDoc (pg : Nat) (headingChunks : List String) (tableStr : String) : Document :=
  let ctx := headingChunks.reverse.find? isFinancialHeading
  let year :=
    match extractYear tableStr with
    | some y => some y
    | none => ctx.bind extractYear
  let metric :=
    match extractMetricType tableStr with
    | some m => some m
    | none => ctx.bind extractMetricType
  let content :=
    match ctx with
    | some h => h ++ "\n" ++ tableStr
    | none => tableStr
  { page_content := content,
    metadata := { page := some pg, chunk_type := some "table",
                  year := year, metric_type := metric } }

/-- The sentence-packing loop of `PDFProcessor.split_into_chunks`: each
sentence is appended to `temp`; when the summed sentence lengths exceed
`chunkSize` the joined accumulator is emitted and `temp` restarts; a
trailing nonempty accumulator is flushed. -/
def packStrs (chunkSize : Nat) : List String → List String → List String
  | temp, [] => if temp.isEmpty then [] else [joinWith " " temp]
  | temp, s :: rest =>
    let t := temp ++ [s]
    if sumLen t > chunkSize then joinWith " " t :: packStrs chunkSize [] rest
    else packStrs chunkSize t rest

/-- Same loop keeping the sentence groups instead of their joins (proof
refinement of `packStrs`). -/
def packGroups (chunkSize : Nat) : List String → List String → List (List String)
  | temp, [] => if temp.isEmpty then [] else [temp]
  | temp, s :: rest =>
    let t := temp ++ [s]
    if sumLen t > chunkSize then t :: packGroups chunkSize [] rest
    else packGroups chunkSize t rest

/-- The heading branch of `PDFProcessor.split_into_chunks` for one
heading chunk: own-text year/metric tags; an over-long chunk (length
more than twice `chunkSize`) is re-split by the external sentence
tokenizer `sentTok` (NLTK `sent_tokenize`) and packed greedily. -/
def headingDocs (chunkSize : Nat) (sentTok : String → List String)
    (pg : Nat) (idx : Nat) (chunk : String) : List Document :=
  let md : Metadata :=
    { page := some pg, chunk_type := some "heading", chunk_index := some idx,
      year := extractYear chunk, metric_type := extractMetricType chunk }
  if chunk.length > chunkSize * 2 then
    (packStrs chunkSize [] (sentTok chunk)).map (fun c => { page_content := c, metadata := md })
  else
    [{ page_content := chunk, metadata := md }]

/-- All chunks emitted for one page by `PDFProcessor.split_into_chunks`:
table documents first, then heading documents in candidate order. -/
def pageDocs (chunkSize : Nat) (sentTok : String → List String) (p : Page) : List Document :=
  let headingChunks := splitByHeadings p.content
  p.tables.map (mkTableDoc p.pageNo headingChunks) ++
    (pyEnum 0 headingChunks).flatMap (fun ic => headingDocs chunkSize sentTok p.pageNo ic.1 ic.2)

/-- `PDFProcessor.split_into_chunks`. -/
def splitIntoChunks (chunkSize : Nat) (sentTok : String → List String)
    (pages : List Page) : List Document :=
  pages.flatMap (pageDocs chunkSize sentTok)

/-! ## Retrieval-generation orchestrator (`backend/services/rag_pipeline.py`)

The vector store is modelled by the list of `(Document, score)` pairs its
`similarity_search` returns; the Ollama client is modelled per attempt by
either an exception or the list of stream chunks, a chunk being `some
token` when a response field is present and `none` for an unexpected
chunk shape (logged and skipped by the source). -/

/-- One entry of the `sources` list built by `generate_answer` and
`stream_answer`: content, page (defaulting to 0), score, metadata. -/
structure Source where
  content : String
  page : Nat
  score : ℚ
  metadata : Metadata
  deriving DecidableEq, Repr

/-- Builds one `sources` entry from a retrieved `(doc, score)` pair:
`meta.get("page", 0)` defaults the page to 0. -/
def mkSource (p : Document × ℚ) : Source :=
  { content := p.1.page_content,
    page := p.1.metadata.page.getD 0,
    score := p.2,
    metadata := p.1.metadata }

/-- `RAGPipeline._retrieve_documents`: keep the pairs whose score is at
least the similarity threshold, in the order the store returned them. -/
def retrieveDocuments (results : List (Document × ℚ)) (threshold : ℚ) : List (Document × ℚ) :=
  results.filter (fun p => threshold ≤ p.2)

/-- `RAGPipeline._generate_context`: contents joined by a blank line. -/
def generateContext (documents : List Document) : String :=
  joinWith "\n\n" (documents.map Document.page_content)

/-- The prompt template of `stream_answer`. -/
def promptTemplate (context question : String) : String :=
  "You are a expert financial assistant. Use all your ability to provide best answer the question.\n\nContext:\n"
    ++ context ++ "\n\nQuestion: " ++ question ++ "\nAnswer:"

/-- A Python exception surfaced by the embedded code. -/
inductive PyErr where
  | attributeError
  deriving DecidableEq, Repr

/-- `self._generate_llm_response(question, context, chat_history)`:
`RAGPipeline` defines no method `_generate_llm_response` and none exists
anywhere in the repository, so the attribute lookup raises
`AttributeError` for every input. -/
def generateLLMResponse (_question _context : String)
    (_chatHistory : List (String × String)) : Except PyErr String :=
  .error .attributeError

/-- The result dict of `RAGPipeline.generate_answer`. -/
structure AnswerResult where
  answer : String
  sources : List Source
  processing_time : ℚ
  deriving DecidableEq, Repr

/-- `RAGPipeline.generate_answer`, with the vector store replaced by its
returned `(doc, score)` list and the elapsed wall-clock duration by
`elapsed`. -/
def generateAnswer (question : String) (chatHistory : List (String × String))
    (storeResults : List (Document × ℚ)) (threshold : ℚ) (elapsed : ℚ) :
    Except PyErr AnswerResult :=
  let docsWithScores := retrieveDocuments storeResults threshold
  let context := generateContext (docsWithScores.map Prod.fst)
  match generateLLMResponse question context chatHistory with
  | .error e => .error e
  | .ok answer =>
    .ok { answer := answer,
          sources := docsWithScores.map mkSource,
          processing_time := pyRound2 elapsed }

/-- The per-request stream state of `stream_answer`: accumulated answer,
the `inside_think_block` flag and the `think_buffer`. -/
structure StreamSt where
  answer : String
  inside : Bool
  buffer : String
  deriving DecidableEq, Repr

/-- The opening reasoning marker. -/
def thinkOpen : String := "<think>"

/-- The closing reasoning marker. -/
def thinkClose : String := "</think>"

/-- The token branch of the stream loop of `stream_answer`: returns the
next state and the fragments forwarded to the caller (zero or one). -/
def streamStep (st : StreamSt) (token : String) : StreamSt × List String :=
  if containsSub token thinkOpen then
    let beforeThink := beforeFirst token thinkOpen
    if beforeThink != "" then
      ({ st with answer := st.answer ++ beforeThink, inside := true }, [beforeThink])
    else
      ({ st with inside := true }, [])
  else if st.inside then
    let buf := st.buffer ++ token
    if containsSub buf thinkClose then
      let afterThink := afterFirst buf thinkClose
      if afterThink != "" then
        ({ answer := st.answer ++ afterThink, inside := false, buffer := "" }, [afterThink])
      else
        ({ st with inside := false, buffer := "" }, [])
    else
      ({ st with buffer := buf }, [])
  else if token != "" then
    ({ st with answer := st.answer ++ token }, [token])
  else
    (st, [])

/-- The chunk loop of `stream_answer` over the model stream: a `none`
chunk has an unexpected shape and is skipped; a `some token` chunk goes
through `streamStep`.  Returns the final state and all forwarded
fragments in order. -/
def runTokens (st : StreamSt) : List (Option String) → StreamSt × List String
  | [] => (st, [])
  | none :: rest => runTokens st rest
  | some token :: rest =>
    let step := streamStep st token
    let next := runTokens step.1 rest
    (next.1, step.2 ++ next.2)

/-- A fragment yielded by `stream_answer` to the caller: a forwarded
text token, the terminal metadata fragment (`"[END_META]" ++ json`,
kept structured here), or the terminal error string. -/
inductive Frag where
  | text : String → Frag
  | endMeta : List Source → ℚ → Frag
  deriving DecidableEq, Repr

/-- An observable event of one `stream_answer` run: a model-collaborator
call with its attempt index and full prompt, a `time.sleep` with its
duration, or a yielded fragment. -/
inductive Ev where
  | llmCall : Nat → String → Ev
  | sleep : Nat → Ev
  | frag : Frag → Ev
  deriving DecidableEq, Repr

/-- The terminal error fragment yielded after retry exhaustion. -/
def llmErrorMsg : String := "[Error: LLM service unavailable or returned no answer]"

/-- The retry loop of `stream_answer` (`for attempt in range(max_retries)`),
as the trace of its observable events: each attempt calls the model with
the same full prompt; an exception sleeps 2 seconds and retries from
scratch; a successful stream yields its forwarded fragments then the
terminal metadata fragment; after exhaustion the single error fragment
is yielded. -/
def attemptLoop (llm : Nat → Except Unit (List (Option String)))
    (prompt : String) (sources : List Source) (ptime : ℚ) :
    Nat → Nat → List Ev
  | _, 0 => [.frag (.text llmErrorMsg)]
  | attempt, fuel + 1 =>
    .llmCall attempt prompt ::
      match llm attempt with
      | .error _ => .sleep 2 :: attemptLoop llm prompt sources ptime (attempt + 1) fuel
      | .ok chunks =>
        ((runTokens { answer := "", inside := false, buffer := "" } chunks).2.map
            (fun t => Ev.frag (.text t))) ++ [.frag (.endMeta sources ptime)]

/-- The `max_retries` constant of `stream_answer`. -/
def maxRetries : Nat := 5

/-- `RAGPipeline.stream_answer`, as the full trace of its observable
events.  The chat history parameter is accepted but never read (as in
the source); the vector store is replaced by its returned list, the
model client by `llm`, and the elapsed wall-clock duration by `elapsed`. -/
def streamAnswerTrace (question : String) (_chatHistory : List (String × String))
    (storeResults : List (Document × ℚ)) (threshold : ℚ)
    (llm : Nat → Except Unit (List (Option String))) (elapsed : ℚ) : List Ev :=
  let docsWithScores := retrieveDocuments storeResults threshold
  let context := generateContext (docsWithScores.map Prod.fst)
  let sources := docsWithScores.map mkSource
  let prompt := promptTemplate context question
  attemptLoop llm prompt sources (pyRound2 elapsed) 0 maxRetries

/-- The fragments of a trace, in order. -/
def traceFrags (tr : List Ev) : List Frag :=
  tr.filterMap (fun e => match e with | .frag f => some f | _ => none)

/-! ## Helper lemmas -/

/-- Every whitespace character surviving `collapseGo` is a space. -/
theorem collapseGo_ws_eq_space (b : Bool) (l : List Char) :
    ∀ c ∈ collapseGo b l, pyIsWs c = true → c = ' ' := by
  induction l generalizing b with
  | nil => intro c hc; simp [collapseGo] at hc
  | cons a as ih =>
    intro c hc hws
    by_cases ha : pyIsWs a = true
    · cases b with
      | true =>
        simp only [collapseGo, ha, if_true] at hc
        exact ih true c hc hws
      | false =>
        simp only [collapseGo, ha, if_true, Bool.false_eq_true, if_false, List.mem_cons] at hc
        rcases hc with rfl | hc
        · rfl
        · exact ih true c hc hws
    · simp only [collapseGo, ha, Bool.false_eq_true, if_false, List.mem_cons] at hc
      rcases hc with rfl | hc
      · exact absurd hws ha
      · exact ih false c hc hws

/-- No newline survives `collapseWs`. -/
theorem newline_not_mem_collapseWs (s : String) : '\n' ∉ (collapseWs s).data := by
  intro hmem
  have := collapseGo_ws_eq_space false s.data '\n' hmem (by decide)
  exact absurd this (by decide)

/-- With no newline in the text, the Python line split returns the single
line made of the accumulator and the rest. -/
theorem splitLinesGo_no_newline (l cur : List Char) (h : '\n' ∉ l) :
    splitLinesGo cur l = [String.mk (cur.reverse ++ l)] := by
  induction l generalizing cur with
  | nil => simp [splitLinesGo]
  | cons c cs ih =>
    have hc : ¬(c == '\n') = true := by
      simp only [beq_iff_eq]
      intro heq
      exact h (heq ▸ List.mem_cons_self c cs)
    have hcs : '\n' ∉ cs := fun hm => h (List.mem_cons_of_mem c hm)
    simp only [splitLinesGo, hc, if_false]
    rw [ih (c :: cur) hcs]
    simp

/-- With no newline in the text, `splitLines` returns the whole text. -/
theorem splitLines_no_newline (s : String) (h : '\n' ∉ s.data) :
    splitLines s = [s] := by
  unfold splitLines
  rw [splitLinesGo_no_newline s.data [] h]
  simp

/-- A string with a non-whitespace character does not strip to empty:
Python truthiness of `s.strip()`. -/
theorem pyStrip_ne_of_hasNonWs (s : String) (h : hasNonWs s = true) :
    pyStrip s ≠ "" := by
  intro hempty
  have hnil : ((s.data.dropWhile pyIsWs).reverse.dropWhile pyIsWs).reverse = [] := by
    have := congrArg String.data hempty
    simpa [pyStrip] using this
  have hdropnil : (s.data.dropWhile pyIsWs).reverse.dropWhile pyIsWs = [] := by
    simpa using congrArg List.reverse hnil
  have hdropall : ∀ x ∈ s.data.dropWhile pyIsWs, pyIsWs x = true := by
    intro x hx
    exact List.dropWhile_eq_nil_iff.mp hdropnil x (List.mem_reverse.mpr hx)
  have hall : ∀ x ∈ s.data, pyIsWs x = true := by
    intro x hx
    rw [← List.takeWhile_append_dropWhile (p := pyIsWs) (l := s.data)] at hx
    rcases List.mem_append.mp hx with hx | hx
    · exact List.mem_takeWhile_imp hx
    · exact hdropall x hx
  simp only [hasNonWs, List.any_eq_true, Bool.not_eq_true'] at h
  obtain ⟨c, hc, hcw⟩ := h
  rw [hall c hc] at hcw
  exact absurd hcw (by decide)

/-- Appending on the left preserves having a non-whitespace character. -/
theorem hasNonWs_append_left (s t : String) (h : hasNonWs s = true) :
    hasNonWs (s ++ t) = true := by
  simp only [hasNonWs, String.data_append, List.any_append, Bool.or_eq_true]
  exact Or.inl (by simpa [hasNonWs] using h)

/-- Appending on the right preserves having a non-whitespace character. -/
theorem hasNonWs_append_right (s t : String) (h : hasNonWs t = true) :
    hasNonWs (s ++ t) = true := by
  simp only [hasNonWs, String.data_append, List.any_append, Bool.or_eq_true]
  exact Or.inr (by simpa [hasNonWs] using h)

/-- A join whose first part has a non-whitespace character has one. -/
theorem hasNonWs_joinWith (sep x : String) (xs : List String) (h : hasNonWs x = true) :
    hasNonWs (joinWith sep (x :: xs)) = true := by
  cases xs with
  | nil => simpa [joinWith] using h
  | cons y ys =>
    show hasNonWs (x ++ sep ++ joinWith sep (y :: ys)) = true
    exact hasNonWs_append_left _ _ (hasNonWs_append_left _ _ h)

/-- The second component of a Python `enumerate` entry is a list member. -/
theorem pyEnum_mem {α : Type} (n : Nat) (l : List α) (p : Nat × α)
    (h : p ∈ pyEnum n l) : p.2 ∈ l := by
  induction l generalizing n with
  | nil => simp [pyEnum] at h
  | cons a as ih =>
    simp only [pyEnum, List.mem_cons] at h
    rcases h with rfl | h
    · exact List.mem_cons_self a as
    · exact List.mem_cons_of_mem a (ih (n + 1) h)

/-- `packStrs` emits exactly the space-joins of the `packGroups` groups. -/
theorem packStrs_eq_packGroups (cs : Nat) (ss temp : List String) :
    packStrs cs temp ss = (packGroups cs temp ss).map (joinWith " ") := by
  induction ss generalizing temp with
  | nil =>
    by_cases h : temp.isEmpty <;> simp [packStrs, packGroups, h]
  | cons s rest ih =>
    by_cases h : sumLen (temp ++ [s]) > cs
    · simp [packStrs, packGroups, h, ih]
    · simp [packStrs, packGroups, h, ih]

/-- Every group emitted by `packGroups` is nonempty. -/
theorem packGroups_ne_nil (cs : Nat) (ss temp : List String)
    (g : List String) (h : g ∈ packGroups cs temp ss) : g ≠ [] := by
  induction ss generalizing temp with
  | nil =>
    by_cases ht : temp.isEmpty
    · simp [packGroups, ht] at h
    · simp only [packGroups, ht, Bool.false_eq_true, if_false, List.mem_singleton] at h
      subst h
      simpa [List.isEmpty_iff] using ht
  | cons s rest ih =>
    by_cases hgt : sumLen (temp ++ [s]) > cs
    · simp only [packGroups, hgt, if_true, List.mem_cons] at h
      rcases h with rfl | h
      · simp
      · exact ih [] h
    · simp only [packGroups, hgt, if_false] at h
      exact ih (temp ++ [s]) h

/-- Every member of an emitted group came from the accumulator or from
the remaining sentences. -/
theorem packGroups_mem (cs : Nat) (ss temp : List String)
    (g : List String) (x : String) (hg : g ∈ packGroups cs temp ss) (hx : x ∈ g) :
    x ∈ temp ∨ x ∈ ss := by
  induction ss generalizing temp with
  | nil =>
    by_cases ht : temp.isEmpty
    · simp [packGroups, ht] at hg
    · simp only [packGroups, ht, Bool.false_eq_true, if_false, List.mem_singleton] at hg
      subst hg
      exact Or.inl hx
  | cons s rest ih =>
    by_cases hgt : sumLen (temp ++ [s]) > cs
    · simp only [packGroups, hgt, if_true, List.mem_cons] at hg
      rcases hg with rfl | hg
      · rcases List.mem_append.mp hx with h | h
        · exact Or.inl h
        · exact Or.inr (List.mem_cons.mpr (Or.inl (List.mem_singleton.mp h)))
      · rcases ih [] hg with h | h
        · simp at h
        · exact Or.inr (List.mem_cons_of_mem s h)
    · simp only [packGroups, hgt, if_false] at hg
      rcases ih (temp ++ [s]) hg with h | h
      · rcases List.mem_append.mp h with h | h
        · exact Or.inl h
        · exact Or.inr (List.mem_cons.mpr (Or.inl (List.mem_singleton.mp h)))
      · exact Or.inr (List.mem_cons_of_mem s h)

/-- Dropping the last element cannot increase the summed lengths. -/
theorem sumLen_dropLast_le (l : List String) : sumLen l.dropLast ≤ sumLen l := by
  induction l with
  | nil => simp
  | cons a as ih =>
    cases as with
    | nil => simp [sumLen]
    | cons b bs =>
      simp only [List.dropLast_cons₂, sumLen, List.map_cons, List.sum_cons] at ih ⊢
      omega

/-- Greedy packing invariant: entering with an accumulator within the
bound, every emitted group stays within the bound once its last sentence
is removed. -/
theorem packGroups_bound (cs : Nat) (ss temp : List String)
    (ht : sumLen temp ≤ cs) (g : List String) (hg : g ∈ packGroups cs temp ss) :
    sumLen g.dropLast ≤ cs := by
  induction ss generalizing temp with
  | nil =>
    by_cases he : temp.isEmpty
    · simp [packGroups, he] at hg
    · simp only [packGroups, he, Bool.false_eq_true, if_false, List.mem_singleton] at hg
      rw [hg]
      exact le_trans (sumLen_dropLast_le temp) ht
  | cons s rest ih =>
    by_cases hgt : sumLen (temp ++ [s]) > cs
    · simp only [packGroups, hgt, if_true, List.mem_cons] at hg
      rcases hg with rfl | hg
      · rw [List.dropLast_concat]
        exact ht
      · exact ih [] (by simp [sumLen]) hg
    · simp only [packGroups, hgt, if_false] at hg
      exact ih (temp ++ [s]) (Nat.le_of_not_lt hgt) hg

/-- Every emitted table line has a non-whitespace character (each starts
with a pipe). -/
theorem tableLine_hasNonWs (headers : List String) (restRows : List (List String))
    (l : String) (h : l ∈ tableHeaderLines headers ++ tableRowLines restRows) :
    hasNonWs l = true := by
  rcases List.mem_append.mp h with h | h
  · unfold tableHeaderLines at h
    by_cases hc : (!headers.isEmpty && headers.any (fun h => h != "")) = true
    · rw [if_pos hc] at h
      rcases List.mem_cons.mp h with rfl | h
      · exact hasNonWs_append_left _ _ (hasNonWs_append_left _ _ (by decide))
      · rcases List.mem_cons.mp h with rfl | h
        · exact hasNonWs_append_left _ _ (hasNonWs_append_left _ _ (by decide))
        · simp at h
    · rw [if_neg hc] at h
      simp at h
  · unfold tableRowLines at h
    rcases List.mem_map.mp h with ⟨r, _, rfl⟩
    exact hasNonWs_append_left _ _ (hasNonWs_append_left _ _ (by decide))

/-- A successfully rendered table string has a non-whitespace character. -/
theorem renderTable_hasNonWs (g : Grid) (x : String) (h : renderTable g = some x) :
    hasNonWs x = true := by
  unfold renderTable at h
  cases hcr : cleanRows g with
  | nil => rw [hcr] at h; exact absurd h (by simp)
  | cons headers restRows =>
    rw [hcr] at h
    dsimp only at h
    cases happ : tableHeaderLines headers ++ tableRowLines restRows with
    | nil => rw [happ] at h; exact absurd h (by simp)
    | cons l0 ls =>
      rw [happ] at h
      dsimp only at h
      simp only [Option.some.injEq] at h
      rw [← h]
      exact hasNonWs_joinWith "\n" l0 ls
        (tableLine_hasNonWs headers restRows l0 (happ ▸ List.mem_cons_self l0 ls))

/-- Every string produced by the table extractor has a non-whitespace
character. -/
theorem extractFinancialTables_hasNonWs (grids : List Grid) (x : String)
    (h : x ∈ extractFinancialTables grids) : hasNonWs x = true := by
  rcases List.mem_filterMap.mp h with ⟨g, _, hg⟩
  by_cases he : g.isEmpty
  · rw [if_pos he] at hg
    exact absurd hg (by simp)
  · rw [if_neg he] at hg
    exact renderTable_hasNonWs g x hg

/-- Every candidate kept by `_split_by_headings` is non-empty after
stripping (the final filter of the source). -/
theorem splitByHeadings_strip_ne (text : String) (c : String)
    (h : c ∈ splitByHeadings text) : pyStrip c ≠ "" := by
  unfold splitByHeadings at h
  have := (List.mem_filter.mp h).2
  simpa using this

/-! ## Claim theorems -/

/-- C1: The claim says `generate_answer` returns, without raising, a
record with the answer, the sources (content, page, score, metadata) and
the rounded processing time.  On the code this is false for every input:
`generate_answer` calls `self._generate_llm_response`, a method defined
nowhere in the repository, so every call raises `AttributeError` before
any result record is built. -/
theorem C1_generate_answer_always_raises
    (question : String) (chatHistory : List (String × String))
    (storeResults : List (Document × ℚ)) (threshold : ℚ) (elapsed : ℚ) :
    generateAnswer question chatHistory storeResults threshold elapsed =
      Except.error PyErr.attributeError := rfl

/-- C4: the retrieval filter keeps exactly the retrieved pairs whose
score is at least the similarity threshold, preserving the order the
store returned (the survivors form a sublist); an empty surviving set
gives the empty context text; and for scores `[0.9, 0.5, 0.2]` with
threshold `0.3` exactly the first two survive, in order. -/
theorem C4_retrieval_filter
    : (∀ (results : List (Document × ℚ)) (thr : ℚ),
        (retrieveDocuments results thr).Sublist results ∧
        (∀ p : Document × ℚ, p ∈ retrieveDocuments results thr ↔ p ∈ results ∧ thr ≤ p.2)) ∧
      generateContext [] = "" ∧
      (∀ d₁ d₂ d₃ : Document,
        retrieveDocuments [(d₁, 9/10), (d₂, 5/10), (d₃, 2/10)] (3/10) =
          [(d₁, 9/10), (d₂, 5/10)]) := by
  refine ⟨fun results thr => ⟨List.filter_sublist results, fun p => ?_⟩, rfl, fun d₁ d₂ d₃ => ?_⟩
  · simp [retrieveDocuments, List.mem_filter]
  · simp only [retrieveDocuments, List.filter]
    norm_num

/-- C10: the chat history parameter does not influence the streaming
output: with the question, the vector-store results and the model
responses fixed, two runs of `stream_answer` differing only in
`chat_history` produce identical event traces (the history is accepted
but never read). -/
theorem C10_chat_history_noninterference
    (question : String) (h₁ h₂ : List (String × String))
    (storeResults : List (Document × ℚ)) (threshold : ℚ)
    (llm : Nat → Except Unit (List (Option String))) (elapsed : ℚ) :
    streamAnswerTrace question h₁ storeResults threshold llm elapsed =
      streamAnswerTrace question h₂ storeResults threshold llm elapsed := rfl

/-- Under an always-failing model collaborator, the retry loop produces
one call and one 2-second sleep per remaining attempt, then the single
terminal error fragment. -/
theorem attemptLoop_fail (llm : Nat → Except Unit (List (Option String)))
    (prompt : String) (sources : List Source) (ptime : ℚ)
    (hfail : ∀ k, llm k = Except.error ()) (fuel attempt : Nat) :
    attemptLoop llm prompt sources ptime attempt fuel =
      ((List.range fuel).flatMap
        (fun k => [Ev.llmCall (attempt + k) prompt, Ev.sleep 2])) ++
        [Ev.frag (Frag.text llmErrorMsg)] := by
  induction fuel generalizing attempt with
  | zero => simp [attemptLoop]
  | succ f ih =>
    rw [attemptLoop, hfail attempt, ih (attempt + 1)]
    rw [List.range_succ_eq_map]
    simp only [List.flatMap_cons, List.flatMap_map, Function.comp]
    simp [Nat.add_assoc, Nat.add_comm 1]

/-- A run of calls and sleeps contributes no fragments to a trace. -/
theorem traceFrags_calls (l : List Nat) (p : String) (rest : List Ev) :
    traceFrags ((l.flatMap (fun k => [Ev.llmCall k p, Ev.sleep 2])) ++ rest) =
      traceFrags rest := by
  induction l with
  | nil => simp
  | cons a as ih => simpa [traceFrags] using ih

/-- C3: when the model collaborator raises on every attempt, the
streaming path makes exactly `maxRetries = 5` calls, each with the same
full prompt rebuilt from scratch, sleeps 2 time units after each failed
attempt (in particular between consecutive attempts), then yields the
single terminal error fragment as the last element of the stream — as a
returned trace, not a propagated exception. -/
theorem C3_retry_exhaustion
    (question : String) (chatHistory : List (String × String))
    (storeResults : List (Document × ℚ)) (threshold : ℚ)
    (llm : Nat → Except Unit (List (Option String))) (elapsed : ℚ)
    (hfail : ∀ k, llm k = Except.error ()) :
    streamAnswerTrace question chatHistory storeResults threshold llm elapsed =
      ((List.range maxRetries).flatMap
        (fun k => [Ev.llmCall k
            (promptTemplate
              (generateContext ((retrieveDocuments storeResults threshold).map Prod.fst))
              question),
          Ev.sleep 2])) ++
        [Ev.frag (Frag.text llmErrorMsg)] ∧
    traceFrags (streamAnswerTrace question chatHistory storeResults threshold llm elapsed) =
      [Frag.text llmErrorMsg] := by
  have h := attemptLoop_fail llm
    (promptTemplate
      (generateContext ((retrieveDocuments storeResults threshold).map Prod.fst)) question)
    ((retrieveDocuments storeResults threshold).map mkSource)
    (pyRound2 elapsed) hfail maxRetries 0
  have htr : streamAnswerTrace question chatHistory storeResults threshold llm elapsed =
      ((List.range maxRetries).flatMap
        (fun k => [Ev.llmCall k
            (promptTemplate
              (generateContext ((retrieveDocuments storeResults threshold).map Prod.fst))
              question),
          Ev.sleep 2])) ++
        [Ev.frag (Frag.text llmErrorMsg)] := by
    unfold streamAnswerTrace
    simpa using h
  refine ⟨htr, ?_⟩
  rw [htr, traceFrags_calls]
  rfl

/-- C3 witness: an always-failing collaborator at concrete inputs. -/
theorem C3_witness :
    streamAnswerTrace "q" [] [] 0 (fun _ => Except.error ()) 0 =
      ((List.range maxRetries).flatMap
        (fun k => [Ev.llmCall k (promptTemplate (generateContext []) "q"), Ev.sleep 2])) ++
        [Ev.frag (Frag.text llmErrorMsg)] ∧
    traceFrags (streamAnswerTrace "q" [] [] 0 (fun _ => Except.error ()) 0) =
      [Frag.text llmErrorMsg] :=
  C3_retry_exhaustion "q" [] [] 0 (fun _ => Except.error ()) 0 (fun _ => rfl)

/-- C2: on the token sequence of the claim, the forwarded fragments are
exactly `["hello ", " world"]` (before the terminal metadata fragment)
and the accumulated answer is `"hello  world"`; moreover, in general, a
token containing the opening marker forwards only the text before the
marker and enters the THINKING state leaving the buffer untouched;
while THINKING, a token without markers is buffered and not forwarded;
and when the buffer contains the closing marker, the non-empty suffix
after it is forwarded and the state returns to NORMAL with the buffer
cleared. -/
theorem C2_stream_reasoning_suppression :
    (runTokens { answer := "", inside := false, buffer := "" }
        [some "hello ", some "<think>reasoning", some "...more", some "</think> world"] =
      ({ answer := "hello  world", inside := false, buffer := "" }, ["hello ", " world"])) ∧
    (traceFrags (streamAnswerTrace "q" [] [] 0
        (fun _ => Except.ok
          [some "hello ", some "<think>reasoning", some "...more", some "</think> world"]) 0) =
      [Frag.text "hello ", Frag.text " world", Frag.endMeta [] (pyRound2 0)]) ∧
    (∀ (st : StreamSt) (tok : String), containsSub tok thinkOpen = true →
      (streamStep st tok).1.inside = true ∧
      (streamStep st tok).1.buffer = st.buffer ∧
      (streamStep st tok).2 =
        (if beforeFirst tok thinkOpen = "" then [] else [beforeFirst tok thinkOpen]) ∧
      (streamStep st tok).1.answer =
        (if beforeFirst tok thinkOpen = "" then st.answer
         else st.answer ++ beforeFirst tok thinkOpen)) ∧
    (∀ (st : StreamSt) (tok : String), st.inside = true →
      containsSub tok thinkOpen = false →
      containsSub (st.buffer ++ tok) thinkClose = false →
      streamStep st tok = ({ st with buffer := st.buffer ++ tok }, [])) ∧
    (∀ (st : StreamSt) (tok : String), st.inside = true →
      containsSub tok thinkOpen = false →
      containsSub (st.buffer ++ tok) thinkClose = true →
      (streamStep st tok).1.inside = false ∧
      (streamStep st tok).1.buffer = "" ∧
      (streamStep st tok).2 =
        (if afterFirst (st.buffer ++ tok) thinkClose = "" then []
         else [afterFirst (st.buffer ++ tok) thinkClose]) ∧
      (streamStep st tok).1.answer =
        (if afterFirst (st.buffer ++ tok) thinkClose = "" then st.answer
         else st.answer ++ afterFirst (st.buffer ++ tok) thinkClose)) := by
  refine ⟨by decide, by rfl, ?_, ?_, ?_⟩
  · intro st tok h
    by_cases hb : beforeFirst tok thinkOpen = ""
    · simp [streamStep, h, hb]
    · simp [streamStep, h, hb]
  · intro st tok hin ho hc
    simp [streamStep, ho, hin, hc]
  · intro st tok hin ho hc
    by_cases ha : afterFirst (st.buffer ++ tok) thinkClose = ""
    · simp [streamStep, ho, hin, hc, ha]
    · simp [streamStep, ho, hin, hc, ha]

/-- C2 witness: the three conditional transition facts at concrete
states and tokens. -/
theorem C2_witness :
    (streamStep { answer := "", inside := false, buffer := "" } "x<think>y").1.inside = true ∧
    streamStep { answer := "a", inside := true, buffer := "" } "abc" =
      ({ answer := "a", inside := true, buffer := "" ++ "abc" }, []) ∧
    (streamStep { answer := "", inside := true, buffer := "...more" } "</think> world").1.inside
      = false :=
  ⟨(C2_stream_reasoning_suppression.2.2.1
      { answer := "", inside := false, buffer := "" } "x<think>y" (by decide)).1,
   C2_stream_reasoning_suppression.2.2.2.1
      { answer := "a", inside := true, buffer := "" } "abc" rfl (by decide) (by decide),
   (C2_stream_reasoning_suppression.2.2.2.2
      { answer := "", inside := true, buffer := "...more" } "</think> world" rfl
      (by decide) (by decide)).1⟩

/-- C9: every page content produced by `extract_text_from_pdf` contains
no newline (all whitespace collapses to single spaces), and on any text
without a newline `_split_by_headings` returns at most one candidate. -/
theorem C9_collapsed_content_single_candidate :
    (∀ (raws : List (String × List Grid)) (p : Page), p ∈ extractTextFromPdf raws →
      '\n' ∉ p.content.data ∧ ∀ c ∈ p.content.data, pyIsWs c = true → c = ' ') ∧
    (∀ s : String, '\n' ∉ s.data → (splitByHeadings s).length ≤ 1) := by
  constructor
  · intro raws p hp
    rcases List.mem_map.mp hp with ⟨q, _, rfl⟩
    exact ⟨newline_not_mem_collapseWs _, collapseGo_ws_eq_space false _⟩
  · intro s hn
    unfold splitByHeadings
    rw [splitLines_no_newline s hn]
    have hlen : (sbhGo [] [s]).length ≤ 1 := by
      by_cases h : isHeadingLine (pyStrip s) = true
      · simp [sbhGo, h]
      · simp [sbhGo, h]
    exact le_trans (List.length_filter_le _ _) hlen

/-- C9 witness: concrete raw page text and concrete newline-free text. -/
theorem C9_witness :
    '\n' ∉ ("a b" : String).data ∧ (splitByHeadings "ab c").length ≤ 1 :=
  ⟨(C9_collapsed_content_single_candidate.1 [("a\nb", [])]
      { pageNo := 1, content := "a b", tables := [] } (by decide)).1,
   C9_collapsed_content_single_candidate.2 "ab c" (by decide)⟩

/-- C5 counterexample: with chunk-size bound 10, the heading block
`"abcdefg hijklmn opqrstu"` (length 23 > 2×10) splits into the sentences
`["abcdefg", "hijklmn", "opqrstu"]` and the packing emits the sub-chunk
`"abcdefg hijklmn"` of length 15 > 10, which is neither within the bound
nor the single trailing sentence: the loop appends a sentence first and
only then compares the accumulated length, so an emitted sub-chunk
overshoots the bound by its final sentence. -/
theorem C5_counterexample :
    ((splitIntoChunks 10 (fun _ => ["abcdefg", "hijklmn", "opqrstu"])
        [{ pageNo := 1, content := "abcdefg hijklmn opqrstu", tables := [] }]).map
          Document.page_content = ["abcdefg hijklmn", "opqrstu"]) ∧
    ("abcdefg hijklmn opqrstu" : String).length > 10 * 2 ∧
    ¬ (∀ c ∈ (splitIntoChunks 10 (fun _ => ["abcdefg", "hijklmn", "opqrstu"])
        [{ pageNo := 1, content := "abcdefg hijklmn opqrstu", tables := [] }]).map
          Document.page_content, c.length ≤ 10 ∨ c = "opqrstu") := by
  decide

/-- C5 (amended): an over-long heading block (content length more than
twice the chunk-size bound) is re-split into sentences and packed
greedily; every emitted sub-chunk is a nonempty sentence group whose
cumulative sentence length, excluding its last sentence, is at most the
chunk-size bound (a sub-chunk is emitted as soon as appending a sentence
pushes the cumulative length over the bound, so an emitted sub-chunk may
exceed the bound by its final sentence). -/
theorem C5_amended_packing_bound (cs : Nat) (sentTok : String → List String)
    (pg idx : Nat) (chunk : String) (h : chunk.length > cs * 2) :
    (headingDocs cs sentTok pg idx chunk).map Document.page_content =
      (packGroups cs [] (sentTok chunk)).map (joinWith " ") ∧
    ∀ g ∈ packGroups cs [] (sentTok chunk), g ≠ [] ∧ sumLen g.dropLast ≤ cs := by
  constructor
  · simp [headingDocs, h, List.map_map, Function.comp, packStrs_eq_packGroups]
  · intro g hg
    exact ⟨packGroups_ne_nil cs (sentTok chunk) [] g hg,
           packGroups_bound cs (sentTok chunk) [] (by simp [sumLen]) g hg⟩

/-- C5 witness: the amended statement at the counterexample input. -/
theorem C5_witness :
    (headingDocs 10 (fun _ => ["abcdefg", "hijklmn", "opqrstu"]) 1 0
        "abcdefg hijklmn opqrstu").map Document.page_content =
      (packGroups 10 [] ["abcdefg", "hijklmn", "opqrstu"]).map (joinWith " ") :=
  (C5_amended_packing_bound 10 (fun _ => ["abcdefg", "hijklmn", "opqrstu"]) 1 0
    "abcdefg hijklmn opqrstu" (by decide)).1

/-- C6 counterexample: a single-page document whose text is the heading
line `"BALANCE SHEET"` followed by body lines yields exactly one chunk,
not at least two: extraction collapses the newlines, so the whole page
text is a single heading-classified candidate. -/
theorem C6_counterexample :
    (splitIntoChunks 1000 (fun s => [s])
      (extractTextFromPdf
        [("BALANCE SHEET\nAssets increased this year.\nCash was strong.", [])])).length = 1 ∧
    ¬ 2 ≤ (splitIntoChunks 1000 (fun s => [s])
      (extractTextFromPdf
        [("BALANCE SHEET\nAssets increased this year.\nCash was strong.", [])])).length := by
  decide

/-- C6 (amended): processing that single-page document yields exactly one
chunk: whitespace collapsing removes the line structure, the whole page
text matches the financial-heading vocabulary, and the resulting chunk is
tagged `chunk_type = heading` with `page = 1` and contains both
`"BALANCE SHEET"` and the body text. -/
theorem C6_amended_one_heading_chunk :
    splitIntoChunks 1000 (fun s => [s])
      (extractTextFromPdf
        [("BALANCE SHEET\nAssets increased this year.\nCash was strong.", [])]) =
      [{ page_content := "BALANCE SHEET Assets increased this year. Cash was strong.",
         metadata := { page := some 1, chunk_type := some "heading", chunk_index := some 0,
                       year := none, metric_type := some "assets" } }] ∧
    containsSub "BALANCE SHEET Assets increased this year. Cash was strong."
      "BALANCE SHEET" = true ∧
    containsSub "BALANCE SHEET Assets increased this year. Cash was strong."
      "Assets increased this year." = true := by
  decide

/-- C7: for every emitted table chunk, the year tag is the first
`19xx`/`20xx` match in the table text, falling back to the context
heading (the last financial-vocabulary heading candidate of the page)
when the table text has none; the metric tag behaves analogously over
the metric vocabulary; when neither source matches, both tags are
absent; and the context heading text, when present, is prepended to the
table content separated by a newline. -/
theorem C7_table_tagging (pg : Nat) (hs : List String) (t : String) :
    (mkTableDoc pg hs t).metadata.page = some pg ∧
    (mkTableDoc pg hs t).metadata.chunk_type = some "table" ∧
    (∀ y, extractYear t = some y → (mkTableDoc pg hs t).metadata.year = some y) ∧
    (extractYear t = none →
      (mkTableDoc pg hs t).metadata.year =
        (hs.reverse.find? isFinancialHeading).bind extractYear) ∧
    (∀ m, extractMetricType t = some m →
      (mkTableDoc pg hs t).metadata.metric_type = some m) ∧
    (extractMetricType t = none →
      (mkTableDoc pg hs t).metadata.metric_type =
        (hs.reverse.find? isFinancialHeading).bind extractMetricType) ∧
    (∀ h, hs.reverse.find? isFinancialHeading = some h →
      (mkTableDoc pg hs t).page_content = h ++ "\n" ++ t) ∧
    (hs.reverse.find? isFinancialHeading = none →
      (mkTableDoc pg hs t).page_content = t) ∧
    ((extractYear t = none ∧
      (hs.reverse.find? isFinancialHeading).bind extractYear = none ∧
      extractMetricType t = none ∧
      (hs.reverse.find? isFinancialHeading).bind extractMetricType = none) →
      (mkTableDoc pg hs t).metadata.year = none ∧
      (mkTableDoc pg hs t).metadata.metric_type = none) := by
  refine ⟨rfl, rfl, ?_, ?_, ?_, ?_, ?_, ?_, ?_⟩
  · intro y hy; simp [mkTableDoc, hy]
  · intro hy; simp [mkTableDoc, hy]
  · intro m hm; simp [mkTableDoc, hm]
  · intro hm; simp [mkTableDoc, hm]
  · intro h hctx; simp [mkTableDoc, hctx]
  · intro hctx; simp [mkTableDoc, hctx]
  · rintro ⟨h1, h2, h3, h4⟩; simp [mkTableDoc, h1, h2, h3, h4]

/-- C7 witness: concrete table strings against a concrete page heading
list. -/
theorem C7_witness :
    (mkTableDoc 1 ["BALANCE SHEET 2020"] "| Revenue | 2023 |").metadata.year = some "2023" ∧
    (mkTableDoc 1 ["BALANCE SHEET 2020"] "| no digits |").metadata.year =
      (["BALANCE SHEET 2020"].reverse.find? isFinancialHeading).bind extractYear ∧
    (mkTableDoc 1 ["BALANCE SHEET 2020"] "| x |").page_content =
      "BALANCE SHEET 2020" ++ "\n" ++ "| x |" :=
  ⟨(C7_table_tagging 1 ["BALANCE SHEET 2020"] "| Revenue | 2023 |").2.2.1 "2023" (by decide),
   (C7_table_tagging 1 ["BALANCE SHEET 2020"] "| no digits |").2.2.2.1 (by decide),
   (C7_table_tagging 1 ["BALANCE SHEET 2020"] "| x |").2.2.2.2.2.2.1
     "BALANCE SHEET 2020" (by decide)⟩

/-- A table chunk content keeps a non-whitespace character of its table
string. -/
theorem mkTableDoc_hasNonWs (pg : Nat) (hs : List String) (t : String)
    (h : hasNonWs t = true) : hasNonWs (mkTableDoc pg hs t).page_content = true := by
  unfold mkTableDoc
  cases hctx : hs.reverse.find? isFinancialHeading with
  | none => simpa [hctx] using h
  | some hh =>
    simp only [hctx]
    exact hasNonWs_append_right _ _ h

/-- C8: assuming the external sentence tokenizer returns only sentences
with a non-whitespace character, every chunk emitted by the segmentation
pipeline (table chunks, whole heading chunks and sentence-packed
sub-chunks alike) has content that is non-empty after stripping. -/
theorem C8_chunks_nonempty (cs : Nat) (sentTok : String → List String)
    (raws : List (String × List Grid))
    (hsent : ∀ s t, t ∈ sentTok s → hasNonWs t = true) :
    ∀ d ∈ splitIntoChunks cs sentTok (extractTextFromPdf raws),
      pyStrip d.page_content ≠ "" := by
  intro d hd
  rcases List.mem_flatMap.mp hd with ⟨p, hp, hdp⟩
  rcases List.mem_map.mp hp with ⟨q, _, rfl⟩
  unfold pageDocs at hdp
  rcases List.mem_append.mp hdp with hdp | hdp
  · rcases List.mem_map.mp hdp with ⟨t, ht, rfl⟩
    have htw : hasNonWs t = true := extractFinancialTables_hasNonWs _ t ht
    exact pyStrip_ne_of_hasNonWs _ (mkTableDoc_hasNonWs _ _ t htw)
  · rcases List.mem_flatMap.mp hdp with ⟨ic, hic, hdh⟩
    have hch : ic.2 ∈ splitByHeadings (collapseWs q.2.1) := pyEnum_mem 0 _ ic hic
    have hchs : pyStrip ic.2 ≠ "" := splitByHeadings_strip_ne _ _ hch
    unfold headingDocs at hdh
    by_cases hlen : ic.2.length > cs * 2
    · rw [if_pos hlen] at hdh
      rw [packStrs_eq_packGroups] at hdh
      rw [List.map_map] at hdh
      rcases List.mem_map.mp hdh with ⟨g, hg, rfl⟩
      have hne := packGroups_ne_nil cs (sentTok ic.2) [] g hg
      cases g with
      | nil => exact absurd rfl hne
      | cons x g' =>
        have hx : x ∈ sentTok ic.2 := by
          rcases packGroups_mem cs (sentTok ic.2) [] (x :: g') x hg
              (List.mem_cons_self x g') with h | h
          · simp at h
          · exact h
        exact pyStrip_ne_of_hasNonWs _ (hasNonWs_joinWith " " x g' (hsent _ x hx))
    · rw [if_neg hlen] at hdh
      rw [List.mem_singleton.mp hdh]
      exact hchs

/-- C8 witness: the single chunk of a concrete one-page document. -/
theorem C8_witness : pyStrip "REVENUE 2020" ≠ "" :=
  C8_chunks_nonempty 10 (fun _ => ["x"]) [("REVENUE 2020", [])]
    (fun _ t ht => by rw [List.mem_singleton.mp ht]; decide)
    { page_content := "REVENUE 2020",
      metadata := { page := some 1, chunk_type := some "heading", chunk_index := some 0,
                    year := some "2020", metric_type := some "revenue" } }
    (by decide)

end RAGQA
